import Mathlib

/-!
Verification of the scoring pipeline of `tonic_validate`
(`src/tonic_validate/validate_scorer.py`).

Shallow embedding conventions:
* Python dicts are association lists with Python's update semantics:
  updating an existing key overwrites it in place, a new key is appended
  (`ainsert`); iteration order is insertion order; `d[k]` lookup is `alookup`.
* Numeric scores (Python floats) are modelled as exact rationals `ℚ`.
* Exceptions are modelled with `Except String`.
* `ThreadPoolExecutor.map` returns results in input order per its contract;
  tasks are pure up to allocation, so it is embedded as an in-order map
  (`scoreRunTasks`, `collectResults`).  A second, schedule-parametric model
  (`executorMapSchedule`) makes positional collection under arbitrary
  completion orders explicit.
* Object allocation (needed to speak about the identity of the
  `OpenAIService` instance constructed per scored response) is modelled by
  threading a `Nat` allocation counter; each constructed service carries
  the allocation number `oid` at which it was created.
* The `parallelism` parameters only bound the worker pools (assumed
  positive, as the thread pool requires); they do not affect the results.
-/

/-- Association-list lookup: first binding of the key wins, matching `d[k]`
on a Python dict whose keys are unique. -/
def alookup {α : Type} (k : String) : List (String × α) → Option α
  | [] => none
  | p :: rest => if p.1 = k then some p.2 else alookup k rest

/-- Association-list update with Python-dict semantics: an existing key is
overwritten in place (keeping its position), a new key is appended. -/
def ainsert {α : Type} (l : List (String × α)) (k : String) (v : α) :
    List (String × α) :=
  match l with
  | [] => [(k, v)]
  | p :: rest => if p.1 = k then (k, v) :: rest else p :: ainsert rest k v

/-- Modelled from the spec: `BenchmarkItem` is
`{question, answer (reference answer), optional reference context}`
(the class itself lives outside the provided sources). -/
structure BenchmarkItem where
  question : String
  answer : String
  context : Option (List String)
deriving DecidableEq, Repr

/-- Modelled from the spec: `LLMResponse` is
`{llm_answer, llm_context_list, benchmark_item}`. -/
structure LLMResponse where
  llm_answer : String
  llm_context_list : List String
  benchmark_item : BenchmarkItem
deriving DecidableEq, Repr

/-- Modelled from the spec: `RunData` is
`{scores : mapping metric-name → float, question, reference_answer,
llm_answer, llm_context_list}`, built positionally as
`RunData(scores, question, answer, llm_answer, llm_context_list)`. -/
structure RunData where
  scores : List (String × ℚ)
  question : String
  reference_answer : String
  llm_answer : String
  llm_context_list : List String
deriving DecidableEq, Repr

/-- Modelled from the spec: `Run` is
`{overall_scores : mapping metric-name → float, run_data, optional id}`. -/
structure Run where
  overall_scores : List (String × ℚ)
  run_data : List RunData
  id : Option String
deriving DecidableEq, Repr

/-- Modelled from the spec: the Judge Service, `OpenAIService(model)`.
`oid` is the runtime identity of the instance: the value of the allocation
counter when it was constructed. -/
structure OpenAIService where
  model_evaluator : String
  oid : Nat
deriving DecidableEq, Repr

/-- Constructing a new `OpenAIService` consumes one allocation number. -/
def OpenAIService.new (model : String) (a : Nat) : OpenAIService × Nat :=
  (⟨model, a⟩, a + 1)

/-- Modelled from the spec: the `Metric` interface — a stable `name` used as
the aggregation key, and `score(response, judgeService) -> float`, which may
raise. -/
structure Metric where
  name : String
  score : LLMResponse → OpenAIService → Except String ℚ

/-- One metric invocation observed during scoring: which metric was called
and with which judge-service instance. -/
structure MetricCall where
  metricName : String
  service : OpenAIService
deriving DecidableEq, Repr

/-- `ValidateScorer.__init__`: owns the configured metric list and the judge
model identifier (`validate_scorer.py` lines 18-29).  Any metric list is
accepted; duplicate names are not rejected. -/
structure ValidateScorer where
  metrics : List Metric
  model_evaluator : String

/-- The `for metric in self.metrics` loop of `_score_item_rundata`
(lines 35-37): each metric is scored with the single service instance and
`scores[metric.name] = score` updates the dict; an exception from
`metric.score` aborts the loop and propagates.  Also returns the trace of
metric invocations actually made. -/
def scoreMetricsLoop (metrics : List Metric) (response : LLMResponse)
    (openai_service : OpenAIService) (scores : List (String × ℚ)) :
    Except String (List (String × ℚ)) × List MetricCall :=
  match metrics with
  | [] => (Except.ok scores, [])
  | metric :: rest =>
    match metric.score response openai_service with
    | Except.error e => (Except.error e, [⟨metric.name, openai_service⟩])
    | Except.ok s =>
      let r := scoreMetricsLoop rest response openai_service
        (ainsert scores metric.name s)
      (r.1, ⟨metric.name, openai_service⟩ :: r.2)

/-- `ValidateScorer._score_item_rundata` (lines 31-46): construct one new
`OpenAIService`, score every configured metric with it, and assemble the
`RunData`.  Returns the result, the metric-call trace, and the allocation
counter after the call. -/
def score_item_rundata (scorer : ValidateScorer) (response : LLMResponse)
    (a : Nat) : Except String RunData × List MetricCall × Nat :=
  let sv := OpenAIService.new scorer.model_evaluator a
  let r := scoreMetricsLoop scorer.metrics response sv.1 []
  match r.1 with
  | Except.error e => (Except.error e, r.2, sv.2)
  | Except.ok scores =>
    (Except.ok ⟨scores, response.benchmark_item.question,
      response.benchmark_item.answer, response.llm_answer,
      response.llm_context_list⟩, r.2, sv.2)

/-- The tasks submitted by `executor.map(self._score_item_rundata, responses)`
(line 66): every response is scored (side effects of all tasks happen), and
the per-task outcomes are kept in input order. -/
def scoreRunTasks (scorer : ValidateScorer) :
    List LLMResponse → Nat →
      List (Except String RunData × List MetricCall) × Nat
  | [], a => ([], a)
  | r :: rest, a =>
    let t := score_item_rundata scorer r a
    let others := scoreRunTasks scorer rest t.2.2
    ((t.1, t.2.1) :: others.1, others.2)

/-- `list(executor.map(...))`: iterating the results in input order either
yields all values or raises the first (in input order) exception. -/
def collectResults {α : Type} : List (Except String α) → Except String (List α)
  | [] => Except.ok []
  | Except.error e :: _ => Except.error e
  | Except.ok x :: rest => (collectResults rest).map (fun l => x :: l)

/-- The body of the aggregation loop of `score_run` (lines 74-75):
`total_scores[metric_name] += score; num_scores[metric_name] += 1` on the
two defaultdicts (missing key reads as `0`). -/
def aggregateStep (acc : List (String × ℚ) × List (String × Nat))
    (kv : String × ℚ) : List (String × ℚ) × List (String × Nat) :=
  (ainsert acc.1 kv.1 ((alookup kv.1 acc.1).getD 0 + kv.2),
   ainsert acc.2 kv.1 ((alookup kv.1 acc.2).getD 0 + 1))

/-- The aggregation loop of `score_run` (lines 69-75): running per-metric
sum (`total_scores`, a `defaultdict(float)`) and count (`num_scores`, a
`defaultdict(int)`) over every `(metric_name, score)` item of every
`RunData`. -/
def aggregate (run_data : List RunData) :
    List (String × ℚ) × List (String × Nat) :=
  run_data.foldl
    (fun acc item => item.scores.foldl aggregateStep acc)
    ([], [])

/-- The `overall_scores` dict comprehension of `score_run` (lines 77-79):
`\x7bmetric: total / num_scores[metric] for metric, total in total_scores\x7d`. -/
def overallScores (run_data : List RunData) : List (String × ℚ) :=
  let acc := aggregate run_data
  acc.1.map (fun kv => (kv.1, kv.2 / ((alookup kv.1 acc.2).getD 0 : ℚ)))

/-- `ValidateScorer.score_run` (lines 48-81): score every response in the
pool, collect the `RunData` list in input order, aggregate, and return
`Run(overall_scores, run_data, None)`. -/
def score_run (scorer : ValidateScorer) (responses : List LLMResponse)
    (parallelism : Nat) (a : Nat) : Except String Run × Nat :=
  let _ := parallelism
  let tasks := scoreRunTasks scorer responses a
  match collectResults (tasks.1.map Prod.fst) with
  | Except.error e => (Except.error e, tasks.2)
  | Except.ok run_data => (Except.ok ⟨overallScores run_data, run_data, none⟩, tasks.2)

/-- `create_response` (lines 130-132): invoke the callback on the item's
question and wrap the answer and context into an `LLMResponse` bound to that
item; a callback exception propagates. -/
def create_response (callback : String → Except String (String × List String))
    (item : BenchmarkItem) : Except String LLMResponse :=
  (callback item.question).map
    (fun r => ⟨r.1, r.2, item⟩)

/-- The generation stage of `score` (lines 136-137):
`list(executor.map(create_response, items))`. -/
def generateResponses (items : List BenchmarkItem)
    (callback : String → Except String (String × List String)) :
    Except String (List LLMResponse) :=
  collectResults (items.map (create_response callback))

/-- `ValidateScorer.score` (lines 103-139) on a plain item list: generate
one response per benchmark item via the callback, then delegate to
`score_run`. -/
def score (scorer : ValidateScorer) (benchmark : List BenchmarkItem)
    (callback : String → Except String (String × List String))
    (callback_parallelism scoring_parallelism : Nat) (a : Nat) :
    Except String Run × Nat :=
  let _ := callback_parallelism
  match generateResponses benchmark callback with
  | Except.error e => (Except.error e, a)
  | Except.ok responses => score_run scorer responses scoring_parallelism a

/-- Schedule-parametric model of the worker pool: each task `i` computes
`f xs[i]` (pure) and, on completion, stores its result positionally in slot
`i`; `order` is the completion order of the tasks. -/
def executorMapSchedule {α β : Type} (f : α → β) (xs : List α)
    (order : List Nat) : List (Option β) :=
  order.foldl
    (fun slots i =>
      match xs[i]? with
      | some x => slots.set i (some (f x))
      | none => slots)
    (List.replicate xs.length none)

/-- The values of metric `m` across exactly those `RunData` entries whose
scores mapping contains the key `m`. -/
def metricValues (run_data : List RunData) (m : String) : List ℚ :=
  run_data.filterMap (fun rd => alookup m rd.scores)

/-- Modelled from the spec: the reference sequential aggregation —
`overall_scores[m]` is the arithmetic mean of the values of `m` over the
`RunData` entries that contain `m`, absent when there are none. -/
def overallScoresRef (run_data : List RunData) (m : String) : Option ℚ :=
  let vs := metricValues run_data m
  if vs = [] then none else some (vs.sum / (vs.length : ℚ))

/-- The `(metric.name, score)` pairs the scoring loop produces for a
response, in configuration order, when every metric succeeds. -/
def metricResults (metrics : List Metric) (response : LLMResponse)
    (sv : OpenAIService) : Except String (List (String × ℚ)) :=
  match metrics with
  | [] => Except.ok []
  | m :: rest =>
    (m.score response sv).bind (fun s =>
      (metricResults rest response sv).map (fun ps => (m.name, s) :: ps))

/-! ### Association-list lemmas -/

theorem alookup_ainsert_self {α : Type} (l : List (String × α)) (k : String)
    (v : α) : alookup k (ainsert l k v) = some v := by
  induction l with
  | nil => simp [ainsert, alookup]
  | cons p rest ih =>
    by_cases h : p.1 = k
    · simp [ainsert, h, alookup]
    · simp [ainsert, h, alookup, ih]

theorem alookup_ainsert_ne {α : Type} (l : List (String × α)) (k k' : String)
    (v : α) (h : k' ≠ k) : alookup k' (ainsert l k v) = alookup k' l := by
  have hkk : ¬ k = k' := fun hh => h hh.symm
  induction l with
  | nil => simp [ainsert, alookup, hkk]
  | cons p rest ih =>
    by_cases hp : p.1 = k
    · subst hp
      simp [ainsert, alookup, hkk]
    · simp [ainsert, hp, alookup, ih]

theorem keys_ainsert {α : Type} (l : List (String × α)) (k : String) (v : α) :
    (ainsert l k v).map Prod.fst =
      if k ∈ l.map Prod.fst then l.map Prod.fst else l.map Prod.fst ++ [k] := by
  induction l with
  | nil => simp [ainsert]
  | cons p rest ih =>
    by_cases hp : p.1 = k
    · subst hp
      simp [ainsert]
    · have hkp : ¬ k = p.1 := fun hh => hp hh.symm
      by_cases hm : k ∈ rest.map Prod.fst
      · simp [ainsert, hp, ih, hm, hkp]
      · simp [ainsert, hp, ih, hm, hkp]

theorem nodup_keys_ainsert {α : Type} (l : List (String × α)) (k : String)
    (v : α) (h : (l.map Prod.fst).Nodup) :
    ((ainsert l k v).map Prod.fst).Nodup := by
  rw [keys_ainsert]
  by_cases hm : k ∈ l.map Prod.fst
  · simpa [hm] using h
  · rw [if_neg hm]
    refine List.Nodup.append h (List.nodup_singleton k) ?_
    intro x hx hk
    rcases List.mem_singleton.1 hk with rfl
    exact hm hx

theorem alookup_eq_none {α : Type} (l : List (String × α)) (k : String) :
    alookup k l = none ↔ k ∉ l.map Prod.fst := by
  induction l with
  | nil => simp [alookup]
  | cons p rest ih =>
    by_cases hp : p.1 = k
    · subst hp
      simp [alookup]
    · have hkp : ¬ k = p.1 := fun hh => hp hh.symm
      simp [alookup, hp, ih, hkp]

theorem alookup_isSome_of_mem_keys {α : Type} (l : List (String × α))
    (k : String) (h : k ∈ l.map Prod.fst) : ∃ v, alookup k l = some v := by
  cases hl : alookup k l with
  | none => exact absurd ((alookup_eq_none l k).1 hl) (by simp [h])
  | some v => exact ⟨v, rfl⟩

theorem alookup_append {α : Type} (l₁ l₂ : List (String × α)) (k : String) :
    alookup k (l₁ ++ l₂) = (alookup k l₁).or (alookup k l₂) := by
  induction l₁ with
  | nil => simp [alookup]
  | cons p rest ih =>
    by_cases hp : p.1 = k
    · simp [alookup, hp]
    · simp [alookup, hp, ih]

theorem alookup_foldl_ainsert {α : Type} (pairs : List (String × α))
    (d : List (String × α)) (k : String) :
    alookup k (pairs.foldl (fun d2 kv => ainsert d2 kv.1 kv.2) d) =
      (alookup k pairs.reverse).or (alookup k d) := by
  induction pairs generalizing d with
  | nil => simp [alookup]
  | cons kv rest ih =>
    have h2 : alookup k (ainsert d kv.1 kv.2) =
        (alookup k [kv]).or (alookup k d) := by
      by_cases hk : kv.1 = k
      · subst hk
        simp [alookup, alookup_ainsert_self]
      · have hkk : k ≠ kv.1 := fun hh => hk hh.symm
        simp [alookup, hk, alookup_ainsert_ne d kv.1 k kv.2 hkk]
    rw [List.foldl_cons, ih, List.reverse_cons, alookup_append, h2,
      Option.or_assoc]

theorem nodup_keys_foldl_ainsert {α : Type} (pairs : List (String × α))
    (d : List (String × α)) (h : (d.map Prod.fst).Nodup) :
    (((pairs.foldl (fun d2 kv => ainsert d2 kv.1 kv.2) d)).map Prod.fst).Nodup := by
  induction pairs generalizing d with
  | nil => exact h
  | cons kv rest ih =>
    rw [List.foldl_cons]
    exact ih _ (nodup_keys_ainsert d kv.1 kv.2 h)

/-! ### Characterization of the per-response scoring loop -/

theorem scoreMetricsLoop_calls_service (metrics : List Metric)
    (r : LLMResponse) (sv : OpenAIService) (d : List (String × ℚ)) :
    ∀ c ∈ (scoreMetricsLoop metrics r sv d).2, c.service = sv := by
  induction metrics generalizing d with
  | nil => simp [scoreMetricsLoop]
  | cons m rest ih =>
    intro c hc
    rw [scoreMetricsLoop] at hc
    cases hm : m.score r sv with
    | error e =>
      rw [hm] at hc
      simp at hc
      rw [hc]
    | ok s =>
      rw [hm] at hc
      simp at hc
      rcases hc with hc | hc
      · rw [hc]
      · exact ih _ c hc

theorem metricResults_nil (r : LLMResponse) (sv : OpenAIService) :
    metricResults [] r sv = Except.ok [] := rfl

theorem metricResults_cons (m : Metric) (rest : List Metric)
    (r : LLMResponse) (sv : OpenAIService) :
    metricResults (m :: rest) r sv =
      (m.score r sv).bind (fun s =>
        (metricResults rest r sv).map (fun ps => (m.name, s) :: ps)) := rfl

theorem scoreMetricsLoop_ok (metrics : List Metric) (r : LLMResponse)
    (sv : OpenAIService) (d scores : List (String × ℚ))
    (calls : List MetricCall)
    (h : scoreMetricsLoop metrics r sv d = (Except.ok scores, calls)) :
    ∃ pairs, metricResults metrics r sv = Except.ok pairs ∧
      scores = pairs.foldl (fun d2 kv => ainsert d2 kv.1 kv.2) d ∧
      calls = metrics.map (fun m => ⟨m.name, sv⟩) := by
  induction metrics generalizing d scores calls with
  | nil =>
    rw [scoreMetricsLoop] at h
    have h1 : d = scores := by simpa using congrArg (fun p => p.1) h
    have h2 : calls = [] := by simpa using (congrArg (fun p => p.2) h).symm
    exact ⟨[], rfl, by simp [h1], by simp [h2]⟩
  | cons m rest ih =>
    rw [scoreMetricsLoop] at h
    cases hm : m.score r sv with
    | error e =>
      rw [hm] at h
      exact absurd (congrArg (fun p => p.1) h) (by simp)
    | ok s =>
      rw [hm] at h
      have h1 : (scoreMetricsLoop rest r sv (ainsert d m.name s)).1 =
          Except.ok scores := by
        simpa using congrArg (fun p => p.1) h
      have h2 : calls = ⟨m.name, sv⟩ ::
          (scoreMetricsLoop rest r sv (ainsert d m.name s)).2 := by
        simpa using (congrArg (fun p => p.2) h).symm
      rcases ih (ainsert d m.name s) scores
          (scoreMetricsLoop rest r sv (ainsert d m.name s)).2
          (by rw [← h1]) with ⟨pairs, hp1, hp2, hp3⟩
      refine ⟨(m.name, s) :: pairs, ?_, ?_, ?_⟩
      · rw [metricResults_cons, hm, hp1]
        simp [Except.bind, Except.map]
      · simpa [List.foldl_cons] using hp2
      · rw [h2, hp3]
        simp

theorem score_item_rundata_alloc (scorer : ValidateScorer) (r : LLMResponse)
    (a : Nat) : (score_item_rundata scorer r a).2.2 = a + 1 := by
  rw [score_item_rundata]
  cases (scoreMetricsLoop scorer.metrics r
      (OpenAIService.new scorer.model_evaluator a).1 []).1 with
  | error e => rfl
  | ok scores => rfl

theorem score_item_rundata_calls_service (scorer : ValidateScorer)
    (r : LLMResponse) (a : Nat) :
    ∀ c ∈ (score_item_rundata scorer r a).2.1,
      c.service = ⟨scorer.model_evaluator, a⟩ := by
  intro c hc
  rw [score_item_rundata] at hc
  have hsv : (OpenAIService.new scorer.model_evaluator a).1 =
      ⟨scorer.model_evaluator, a⟩ := rfl
  cases hl : (scoreMetricsLoop scorer.metrics r
      (OpenAIService.new scorer.model_evaluator a).1 []).1 with
  | error e =>
    rw [hl] at hc
    simp at hc
    exact hsv ▸ scoreMetricsLoop_calls_service scorer.metrics r _ [] c hc
  | ok scores =>
    rw [hl] at hc
    simp at hc
    exact hsv ▸ scoreMetricsLoop_calls_service scorer.metrics r _ [] c hc

theorem score_item_rundata_ok (scorer : ValidateScorer) (r : LLMResponse)
    (a : Nat) (rd : RunData)
    (h : (score_item_rundata scorer r a).1 = Except.ok rd) :
    ∃ pairs,
      metricResults scorer.metrics r ⟨scorer.model_evaluator, a⟩ =
        Except.ok pairs ∧
      rd.scores = pairs.foldl (fun d2 kv => ainsert d2 kv.1 kv.2) [] ∧
      rd.question = r.benchmark_item.question ∧
      rd.reference_answer = r.benchmark_item.answer ∧
      rd.llm_answer = r.llm_answer ∧
      rd.llm_context_list = r.llm_context_list ∧
      (score_item_rundata scorer r a).2.1 =
        scorer.metrics.map (fun m => ⟨m.name, ⟨scorer.model_evaluator, a⟩⟩) := by
  rw [score_item_rundata] at h ⊢
  cases hl : scoreMetricsLoop scorer.metrics r
      (OpenAIService.new scorer.model_evaluator a).1 [] with
  | mk res calls =>
    cases res with
    | error e =>
      rw [hl] at h
      simp at h
    | ok scores =>
      rw [hl] at h
      simp at h
      rcases scoreMetricsLoop_ok scorer.metrics r _ [] scores calls hl with
        ⟨pairs, hp1, hp2, hp3⟩
      have hsv : (OpenAIService.new scorer.model_evaluator a).1 =
          ⟨scorer.model_evaluator, a⟩ := rfl
      rw [hsv] at hp1 hp3
      refine ⟨pairs, hp1, ?_, ?_, ?_, ?_, ?_, ?_⟩
      · rw [← h]
        exact hp2
      · rw [← h]
      · rw [← h]
      · rw [← h]
      · rw [← h]
      · simpa using hp3

theorem score_item_rundata_ok_nodup (scorer : ValidateScorer)
    (r : LLMResponse) (a : Nat) (rd : RunData)
    (h : (score_item_rundata scorer r a).1 = Except.ok rd) :
    (rd.scores.map Prod.fst).Nodup := by
  rcases score_item_rundata_ok scorer r a rd h with ⟨pairs, _, hp2, _⟩
  rw [hp2]
  exact nodup_keys_foldl_ainsert pairs [] (by simp)

/-! ### Collecting results from the executor -/

theorem collectResults_ok {α : Type} (es : List (Except String α))
    (xs : List α) (h : collectResults es = Except.ok xs) :
    es = xs.map Except.ok := by
  induction es generalizing xs with
  | nil =>
    rw [collectResults] at h
    simp at h
    simp [← h]
  | cons e rest ih =>
    cases e with
    | error e0 => simp [collectResults] at h
    | ok x =>
      rw [collectResults] at h
      cases hr : collectResults rest with
      | error e' => rw [hr] at h; simp [Except.map] at h
      | ok ys =>
        rw [hr] at h
        simp [Except.map] at h
        rw [← h, ih ys hr]
        simp

theorem collectResults_error_of_mem {α : Type} (es : List (Except String α))
    (e : String) (h : Except.error e ∈ es) :
    ∃ e', collectResults es = Except.error e' := by
  induction es with
  | nil => cases h
  | cons hd rest ih =>
    cases hd with
    | error e0 => exact ⟨e0, rfl⟩
    | ok x =>
      rcases List.mem_cons.1 h with h1 | h1
      · cases h1
      · rcases ih h1 with ⟨e', he⟩
        exact ⟨e', by rw [collectResults, he]; rfl⟩

/-! ### The scoring-stage task list -/

theorem scoreRunTasks_alloc (scorer : ValidateScorer)
    (rs : List LLMResponse) (a : Nat) :
    (scoreRunTasks scorer rs a).2 = a + rs.length := by
  induction rs generalizing a with
  | nil => rfl
  | cons r rest ih =>
    simp only [scoreRunTasks]
    rw [score_item_rundata_alloc, ih]
    simp only [List.length_cons]
    omega

theorem scoreRunTasks_length (scorer : ValidateScorer)
    (rs : List LLMResponse) (a : Nat) :
    (scoreRunTasks scorer rs a).1.length = rs.length := by
  induction rs generalizing a with
  | nil => rfl
  | cons r rest ih =>
    simp only [scoreRunTasks, List.length_cons]
    rw [ih]

theorem scoreRunTasks_getElem (scorer : ValidateScorer)
    (rs : List LLMResponse) (a : Nat) (i : Nat) (h : i < rs.length) :
    (scoreRunTasks scorer rs a).1[i]? =
      some ((score_item_rundata scorer rs[i] (a + i)).1,
            (score_item_rundata scorer rs[i] (a + i)).2.1) := by
  induction rs generalizing a i with
  | nil => cases h
  | cons r rest ih =>
    cases i with
    | zero => simp [scoreRunTasks]
    | succ j =>
      have hj : j < rest.length := by simpa using h
      have harith : a + 1 + j = a + (j + 1) := by omega
      simp only [scoreRunTasks, List.getElem?_cons_succ]
      rw [score_item_rundata_alloc, ih (a + 1) j hj, harith]
      simp

theorem scoreRunTasks_mem (scorer : ValidateScorer) (rs : List LLMResponse)
    (a : Nat) (t : Except String RunData × List MetricCall)
    (ht : t ∈ (scoreRunTasks scorer rs a).1) :
    ∃ r a0, r ∈ rs ∧
      t = ((score_item_rundata scorer r a0).1,
           (score_item_rundata scorer r a0).2.1) := by
  induction rs generalizing a with
  | nil => cases ht
  | cons r rest ih =>
    rw [scoreRunTasks] at ht
    rcases List.mem_cons.1 ht with h1 | h1
    · exact ⟨r, a, List.mem_cons_self r rest, h1⟩
    · rcases ih _ h1 with ⟨r0, a0, hr0, ht0⟩
      exact ⟨r0, a0, List.mem_cons_of_mem r hr0, ht0⟩

/-! ### Aggregation: running sums and counts compute per-metric means -/

/-- The values attached to key `m` among the items of one scores dict. -/
def valsOf (m : String) (P : List (String × ℚ)) : List ℚ :=
  (P.filter (fun kv => kv.1 == m)).map Prod.snd

theorem valsOf_nil_iff (P : List (String × ℚ)) (m : String) :
    valsOf m P = [] ↔ alookup m P = none := by
  induction P with
  | nil => simp [valsOf, alookup]
  | cons p rest ih =>
    by_cases hp : p.1 = m
    · simp [valsOf, alookup, hp, List.filter_cons]
    · simp [valsOf, alookup, hp, List.filter_cons] at ih ⊢
      exact ih

theorem valsOf_of_nodup (P : List (String × ℚ)) (m : String) (v : ℚ)
    (hnd : (P.map Prod.fst).Nodup) (hv : alookup m P = some v) :
    valsOf m P = [v] := by
  induction P with
  | nil => simp [alookup] at hv
  | cons p rest ih =>
    simp only [List.map_cons, List.nodup_cons] at hnd
    by_cases hp : p.1 = m
    · rw [alookup, if_pos hp] at hv
      have hrest : alookup m rest = none := by
        rw [alookup_eq_none]
        rw [← hp]
        exact hnd.1
      have : valsOf m rest = [] := (valsOf_nil_iff rest m).2 hrest
      simp [valsOf, List.filter_cons, hp] at this ⊢
      refine ⟨by simpa using hv, ?_⟩
      simpa [valsOf] using this
    · rw [alookup, if_neg hp] at hv
      simp [valsOf, List.filter_cons, hp]
      simpa [valsOf] using ih hnd.2 hv

theorem aggregate_inner (P : List (String × ℚ)) (ts : List (String × ℚ))
    (ns : List (String × Nat)) (m : String) :
    (alookup m (P.foldl aggregateStep (ts, ns)).1 =
       if valsOf m P = [] then alookup m ts
       else some ((alookup m ts).getD 0 + (valsOf m P).sum)) ∧
    (alookup m (P.foldl aggregateStep (ts, ns)).2 =
       if valsOf m P = [] then alookup m ns
       else some ((alookup m ns).getD 0 + (valsOf m P).length)) := by
  induction P generalizing ts ns with
  | nil => simp [valsOf]
  | cons kv rest ih =>
    rw [List.foldl_cons]
    have hstep : aggregateStep (ts, ns) kv =
        (ainsert ts kv.1 ((alookup kv.1 ts).getD 0 + kv.2),
         ainsert ns kv.1 ((alookup kv.1 ns).getD 0 + 1)) := rfl
    rw [hstep]
    rcases ih (ainsert ts kv.1 ((alookup kv.1 ts).getD 0 + kv.2))
        (ainsert ns kv.1 ((alookup kv.1 ns).getD 0 + 1)) with ⟨ih1, ih2⟩
    by_cases hk : kv.1 = m
    · subst hk
      have hts : alookup kv.1 (ainsert ts kv.1 ((alookup kv.1 ts).getD 0 + kv.2)) =
          some ((alookup kv.1 ts).getD 0 + kv.2) := alookup_ainsert_self ts kv.1 _
      have hns : alookup kv.1 (ainsert ns kv.1 ((alookup kv.1 ns).getD 0 + 1)) =
          some ((alookup kv.1 ns).getD 0 + 1) := alookup_ainsert_self ns kv.1 _
      have hvals : valsOf kv.1 (kv :: rest) = kv.2 :: valsOf kv.1 rest := by
        simp [valsOf, List.filter_cons]
      constructor
      · rw [ih1, hvals]
        by_cases hre : valsOf kv.1 rest = []
        · simp [hre, hts]
        · simp [hre, hts]
          ring
      · rw [ih2, hvals]
        by_cases hre : valsOf kv.1 rest = []
        · simp [hre, hns]
        · simp [hre, hns]
          ring
    · have hkm : ¬ m = kv.1 := fun hh => hk hh.symm
      have hts : alookup m (ainsert ts kv.1 ((alookup kv.1 ts).getD 0 + kv.2)) =
          alookup m ts := alookup_ainsert_ne ts kv.1 m _ hkm
      have hns : alookup m (ainsert ns kv.1 ((alookup kv.1 ns).getD 0 + 1)) =
          alookup m ns := alookup_ainsert_ne ns kv.1 m _ hkm
      have hvals : valsOf m (kv :: rest) = valsOf m rest := by
        simp [valsOf, List.filter_cons, hk]
      rw [ih1, ih2, hts, hns, hvals]
      exact ⟨rfl, rfl⟩

theorem aggregate_fold (rds : List RunData) (ts : List (String × ℚ))
    (ns : List (String × Nat)) (m : String)
    (hnd : ∀ rd ∈ rds, (rd.scores.map Prod.fst).Nodup) :
    (alookup m (rds.foldl (fun acc item => item.scores.foldl aggregateStep acc)
        (ts, ns)).1 =
       if metricValues rds m = [] then alookup m ts
       else some ((alookup m ts).getD 0 + (metricValues rds m).sum)) ∧
    (alookup m (rds.foldl (fun acc item => item.scores.foldl aggregateStep acc)
        (ts, ns)).2 =
       if metricValues rds m = [] then alookup m ns
       else some ((alookup m ns).getD 0 + (metricValues rds m).length)) := by
  induction rds generalizing ts ns with
  | nil => simp [metricValues]
  | cons rd rest ih =>
    have hnd0 : (rd.scores.map Prod.fst).Nodup := hnd rd (List.mem_cons_self rd rest)
    have hndr : ∀ x ∈ rest, (x.scores.map Prod.fst).Nodup :=
      fun x hx => hnd x (List.mem_cons_of_mem rd hx)
    rw [List.foldl_cons]
    rcases aggregate_inner rd.scores ts ns m with ⟨hin1, hin2⟩
    have heta : (rd.scores.foldl aggregateStep (ts, ns)) =
        ((rd.scores.foldl aggregateStep (ts, ns)).1,
         (rd.scores.foldl aggregateStep (ts, ns)).2) := rfl
    rw [heta]
    rcases ih (rd.scores.foldl aggregateStep (ts, ns)).1
        (rd.scores.foldl aggregateStep (ts, ns)).2 hndr with ⟨ihr1, ihr2⟩
    cases hrd : alookup m rd.scores with
    | none =>
      have hv : valsOf m rd.scores = [] := (valsOf_nil_iff rd.scores m).2 hrd
      have hmv : metricValues (rd :: rest) m = metricValues rest m := by
        simp [metricValues, List.filterMap_cons, hrd]
      rw [ihr1, ihr2, hin1, hin2, hv, hmv]
      simp
    | some v =>
      have hv : valsOf m rd.scores = [v] := valsOf_of_nodup rd.scores m v hnd0 hrd
      have hmv : metricValues (rd :: rest) m = v :: metricValues rest m := by
        simp [metricValues, List.filterMap_cons, hrd]
      rw [ihr1, ihr2, hin1, hin2, hv, hmv]
      constructor
      · by_cases hre : metricValues rest m = []
        · simp [hre]
        · simp [hre]
          ring
      · by_cases hre : metricValues rest m = []
        · simp [hre]
        · simp [hre]
          ring

theorem aggregate_lookup (rds : List RunData) (m : String)
    (hnd : ∀ rd ∈ rds, (rd.scores.map Prod.fst).Nodup) :
    (alookup m (aggregate rds).1 =
       if metricValues rds m = [] then none
       else some (metricValues rds m).sum) ∧
    (alookup m (aggregate rds).2 =
       if metricValues rds m = [] then none
       else some (metricValues rds m).length) := by
  rcases aggregate_fold rds [] [] m hnd with ⟨h1, h2⟩
  rw [aggregate]
  constructor
  · rw [h1]
    simp [alookup]
  · rw [h2]
    simp [alookup]

theorem alookup_map_values {α β : Type} (l : List (String × α))
    (f : String → α → β) (k : String) :
    alookup k (l.map (fun kv => (kv.1, f kv.1 kv.2))) = (alookup k l).map (f k) := by
  induction l with
  | nil => simp [alookup]
  | cons p rest ih =>
    by_cases hp : p.1 = k
    · subst hp
      simp [alookup, ih]
    · simp [alookup, hp, ih]

theorem overallScores_lookup (rds : List RunData) (m : String)
    (hnd : ∀ rd ∈ rds, (rd.scores.map Prod.fst).Nodup) :
    alookup m (overallScores rds) =
      if metricValues rds m = [] then none
      else some ((metricValues rds m).sum /
        ((metricValues rds m).length : ℚ)) := by
  rcases aggregate_lookup rds m hnd with ⟨h1, h2⟩
  rw [overallScores]
  rw [alookup_map_values ((aggregate rds).1)
    (fun k t => t / ((alookup k (aggregate rds).2).getD 0 : ℚ)) m]
  rw [h1, h2]
  by_cases hre : metricValues rds m = []
  · simp [hre]
  · simp [hre]

/-! ### Characterization of `score_run` -/

theorem score_run_ok (scorer : ValidateScorer) (responses : List LLMResponse)
    (p a a' : Nat) (run : Run)
    (h : score_run scorer responses p a = (Except.ok run, a')) :
    run.overall_scores = overallScores run.run_data ∧
    collectResults ((scoreRunTasks scorer responses a).1.map Prod.fst) =
      Except.ok run.run_data ∧
    run.id = none ∧ a' = a + responses.length := by
  rw [score_run] at h
  cases hc : collectResults ((scoreRunTasks scorer responses a).1.map Prod.fst) with
  | error e =>
    rw [hc] at h
    simp at h
  | ok run_data =>
    rw [hc] at h
    simp at h
    rcases h with ⟨h1, h2⟩
    subst h1
    refine ⟨rfl, rfl, rfl, ?_⟩
    rw [← h2, scoreRunTasks_alloc]

theorem score_run_rundata_nodup (scorer : ValidateScorer)
    (responses : List LLMResponse) (p a a' : Nat) (run : Run)
    (h : score_run scorer responses p a = (Except.ok run, a')) :
    ∀ rd ∈ run.run_data, (rd.scores.map Prod.fst).Nodup := by
  intro rd hrd
  rcases score_run_ok scorer responses p a a' run h with ⟨_, hc, _, _⟩
  have hes := collectResults_ok _ _ hc
  have hmem : Except.ok rd ∈ (scoreRunTasks scorer responses a).1.map Prod.fst := by
    rw [hes]
    exact List.mem_map_of_mem Except.ok hrd
  rcases List.mem_map.1 hmem with ⟨t, ht, hteq⟩
  rcases scoreRunTasks_mem scorer responses a t ht with ⟨r, a0, _, hteq2⟩
  have : (score_item_rundata scorer r a0).1 = Except.ok rd := by
    rw [← hteq, hteq2]
  exact score_item_rundata_ok_nodup scorer r a0 rd this

/-! ### Positional collection under arbitrary completion schedules -/

theorem executorMapSchedule_go {α β : Type} (f : α → β) (xs : List α)
    (order : List Nat) (slots : List (Option β))
    (hlen : slots.length = xs.length) :
    ∀ j, (order.foldl
        (fun slots i =>
          match xs[i]? with
          | some x => slots.set i (some (f x))
          | none => slots) slots)[j]? =
      if j ∈ order ∧ j < xs.length then (xs[j]?).map (fun x => some (f x))
      else slots[j]? := by
  induction order generalizing slots with
  | nil => intro j; simp
  | cons i rest ih =>
    intro j
    rw [List.foldl_cons]
    have hlen' : (match xs[i]? with
        | some x => slots.set i (some (f x))
        | none => slots).length = xs.length := by
      cases xs[i]? with
      | some x => simpa using hlen
      | none => exact hlen
    rw [ih _ hlen' j]
    by_cases hjr : j ∈ rest ∧ j < xs.length
    · simp [hjr, List.mem_cons]
    · by_cases hji : j = i
      · subst hji
        by_cases hjx : j < xs.length
        · have hx : xs[j]? = some xs[j] := List.getElem?_eq_getElem hjx
          rw [if_neg hjr]
          simp only [hx]
          rw [if_pos ⟨List.mem_cons_self j rest, hjx⟩]
          rw [List.getElem?_set_eq_of_lt (some (f xs[j])) (by rw [hlen]; exact hjx)]
          rfl
        · have hx : xs[j]? = none := List.getElem?_eq_none (by omega)
          rw [if_neg hjr]
          simp only [hx]
          rw [if_neg (by tauto)]
      · have hset : (match xs[i]? with
            | some x => slots.set i (some (f x))
            | none => slots)[j]? = slots[j]? := by
          cases xs[i]? with
          | some x => exact List.getElem?_set_ne (fun hh => hji hh.symm)
          | none => rfl
        rw [if_neg hjr, hset]
        have hnc : ¬ (j ∈ i :: rest ∧ j < xs.length) := by
          intro hh
          rcases hh with ⟨hm, hlt⟩
          rcases List.mem_cons.1 hm with hm1 | hm1
          · exact hji hm1
          · exact hjr ⟨hm1, hlt⟩
        rw [if_neg hnc]

theorem executorMapSchedule_length {α β : Type} (f : α → β) (xs : List α)
    (order : List Nat) :
    (executorMapSchedule f xs order).length = xs.length := by
  rw [executorMapSchedule]
  have go : ∀ (ord : List Nat) (slots : List (Option β)),
      (ord.foldl (fun slots i =>
        match xs[i]? with
        | some x => slots.set i (some (f x))
        | none => slots) slots).length = slots.length := by
    intro ord
    induction ord with
    | nil => intro slots; rfl
    | cons i rest ih =>
      intro slots
      rw [List.foldl_cons, ih]
      cases xs[i]? with
      | some x => simp
      | none => rfl
  rw [go]
  simp

theorem executorMapSchedule_eq {α β : Type} (f : α → β) (xs : List α)
    (order : List Nat) (hcov : ∀ i, i < xs.length → i ∈ order) :
    executorMapSchedule f xs order = (xs.map f).map some := by
  apply List.ext_getElem?
  intro j
  rw [executorMapSchedule]
  rw [executorMapSchedule_go f xs order (List.replicate xs.length none)
    (by simp) j]
  by_cases hj : j < xs.length
  · rw [if_pos ⟨hcov j hj, hj⟩]
    rw [List.getElem?_eq_getElem hj]
    rw [List.getElem?_map some (xs.map f) j,
      List.getElem?_map f xs j, List.getElem?_eq_getElem hj]
    rfl
  · rw [if_neg (by tauto)]
    rw [List.getElem?_eq_none (by simpa using Nat.le_of_not_lt hj)]
    rw [List.getElem?_eq_none (by simpa using Nat.le_of_not_lt hj)]

/-! ### The generation stage -/

theorem generateResponses_ok (items : List BenchmarkItem)
    (cb : String → Except String (String × List String))
    (responses : List LLMResponse)
    (h : generateResponses items cb = Except.ok responses) :
    responses.length = items.length ∧
    ∀ i (hi : i < items.length) (hi' : i < responses.length),
      create_response cb items[i] = Except.ok responses[i] := by
  have hmap := collectResults_ok _ _ h
  have hlen : items.length = responses.length := by
    have := congrArg List.length hmap
    simpa using this
  refine ⟨hlen.symm, ?_⟩
  intro i hi hi'
  have hq := congrArg (fun l => l[i]?) hmap
  simp only at hq
  rw [List.getElem?_map (create_response cb) items i,
    List.getElem?_map Except.ok responses i,
    List.getElem?_eq_getElem hi, List.getElem?_eq_getElem hi'] at hq
  simpa using hq

theorem metricResults_names (metrics : List Metric) (r : LLMResponse)
    (sv : OpenAIService) (pairs : List (String × ℚ))
    (h : metricResults metrics r sv = Except.ok pairs) :
    pairs.map Prod.fst = metrics.map Metric.name := by
  induction metrics generalizing pairs with
  | nil =>
    rw [metricResults] at h
    simp at h
    simp [← h]
  | cons m rest ih =>
    rw [metricResults_cons] at h
    cases hm : m.score r sv with
    | error e => rw [hm] at h; simp [Except.bind] at h
    | ok s =>
      rw [hm] at h
      cases hr : metricResults rest r sv with
      | error e' => rw [hr] at h; simp [Except.bind, Except.map] at h
      | ok ps =>
        rw [hr] at h
        simp [Except.bind, Except.map] at h
        rw [← h]
        simp [ih ps hr]

/-! ### Claims -/

/-- C1: in the Run returned by `score_run`, `overall_scores[m]` equals the
arithmetic mean of the values `scores[m]` taken over exactly those RunData
entries whose scores mapping contains the key `m` (running sum and count per
metric name; no assumption that every RunData contains every metric). -/
theorem spec_c1_overall_mean (scorer : ValidateScorer)
    (responses : List LLMResponse) (p a a' : Nat) (run : Run) (m : String)
    (v : ℚ) (hrun : score_run scorer responses p a = (Except.ok run, a'))
    (hm : alookup m run.overall_scores = some v) :
    v = (metricValues run.run_data m).sum /
      ((metricValues run.run_data m).length : ℚ) := by
  rcases score_run_ok scorer responses p a a' run hrun with ⟨hov, _, _, _⟩
  have hnd := score_run_rundata_nodup scorer responses p a a' run hrun
  rw [hov, overallScores_lookup run.run_data m hnd] at hm
  by_cases hre : metricValues run.run_data m = []
  · rw [if_pos hre] at hm
    cases hm
  · rw [if_neg hre] at hm
    exact (Option.some.inj hm).symm

/-- C6: every metric name in `overall_scores` appears in at least one
RunData's scores, and its denominator in the mean is its observation count,
which is at least one — a metric with zero observations is simply absent
from `overall_scores`. -/
theorem spec_c6_no_zero_count (scorer : ValidateScorer)
    (responses : List LLMResponse) (p a a' : Nat) (run : Run) (m : String)
    (hrun : score_run scorer responses p a = (Except.ok run, a'))
    (hm : (alookup m run.overall_scores).isSome) :
    0 < (metricValues run.run_data m).length ∧
    alookup m (aggregate run.run_data).2 =
      some (metricValues run.run_data m).length ∧
    ∃ rd ∈ run.run_data, (alookup m rd.scores).isSome := by
  rcases score_run_ok scorer responses p a a' run hrun with ⟨hov, _, _, _⟩
  have hnd := score_run_rundata_nodup scorer responses p a a' run hrun
  rw [hov, overallScores_lookup run.run_data m hnd] at hm
  by_cases hre : metricValues run.run_data m = []
  · rw [if_pos hre] at hm
    cases hm
  · have hlen : 0 < (metricValues run.run_data m).length :=
      List.length_pos.2 hre
    refine ⟨hlen, ?_, ?_⟩
    · rcases aggregate_lookup run.run_data m hnd with ⟨_, h2⟩
      rw [h2, if_neg hre]
    · by_contra hno
      push_neg at hno
      apply hre
      rw [metricValues, List.filterMap_eq_nil_iff]
      intro rd hrd
      have := hno rd hrd
      cases halo : alookup m rd.scores with
      | none => rfl
      | some v => rw [halo] at this; simp at this

/-- C7: scoring an empty response list (or an empty benchmark-item list)
is not an error: the result is `Run(overall_scores={}, run_data=[])` and
the allocation counter is unchanged. -/
theorem spec_c7_empty_input (scorer : ValidateScorer) (p cp sp a : Nat)
    (cb : String → Except String (String × List String)) :
    score_run scorer [] p a = (Except.ok ⟨[], [], none⟩, a) ∧
    score scorer [] cb cp sp a = (Except.ok ⟨[], [], none⟩, a) :=
  ⟨rfl, rfl⟩

/-- C2: the generation stage of `score` preserves the input order of the
benchmark items: under any completion order covering all tasks, positional
collection yields the in-order image of `create_response`, and on success
the i-th LLMResponse is built from the callback result for the i-th item. -/
theorem spec_c2_generation_order
    (cb : String → Except String (String × List String))
    (items : List BenchmarkItem) (order : List Nat)
    (responses : List LLMResponse)
    (hcov : ∀ i, i < items.length → i ∈ order)
    (hok : generateResponses items cb = Except.ok responses) :
    executorMapSchedule (create_response cb) items order =
      (items.map (create_response cb)).map some ∧
    responses.length = items.length ∧
    ∀ i (hi : i < items.length) (hi' : i < responses.length),
      create_response cb items[i] = Except.ok responses[i] := by
  rcases generateResponses_ok items cb responses hok with ⟨h1, h2⟩
  exact ⟨executorMapSchedule_eq (create_response cb) items order hcov, h1, h2⟩

/-- C9: the `run_data` list of the Run returned by `score_run` preserves the
input order of the responses: the i-th RunData is the scoring result of the
i-th LLMResponse. -/
theorem spec_c9_rundata_order (scorer : ValidateScorer)
    (responses : List LLMResponse) (p a a' : Nat) (run : Run)
    (hrun : score_run scorer responses p a = (Except.ok run, a')) :
    run.run_data.length = responses.length ∧
    ∀ i (hi : i < responses.length) (hi' : i < run.run_data.length),
      (score_item_rundata scorer responses[i] (a + i)).1 =
        Except.ok run.run_data[i] := by
  rcases score_run_ok scorer responses p a a' run hrun with ⟨_, hc, _, _⟩
  have hes := collectResults_ok _ _ hc
  have hlen : run.run_data.length = responses.length := by
    have := congrArg List.length hes
    simpa [scoreRunTasks_length] using this.symm
  refine ⟨hlen, ?_⟩
  intro i hi hi'
  have hq := congrArg (fun l => l[i]?) hes
  simp only at hq
  rw [List.getElem?_map Prod.fst (scoreRunTasks scorer responses a).1 i,
    List.getElem?_map Except.ok run.run_data i,
    scoreRunTasks_getElem scorer responses a i hi,
    List.getElem?_eq_getElem hi'] at hq
  simpa using hq

/-- C3: per-response scoring is atomic: a successful RunData has an entry
for every configured metric (none silently skipped), and a single metric
raising while scoring one response aborts the whole `score_run` call with
an error instead of a Run. -/
theorem spec_c3_atomic_scoring (scorer : ValidateScorer)
    (responses : List LLMResponse) (p a : Nat) :
    (∀ r rd a0, (score_item_rundata scorer r a0).1 = Except.ok rd →
      ∀ m ∈ scorer.metrics, ∃ v, alookup m.name rd.scores = some v) ∧
    (∀ i e (hi : i < responses.length),
      (score_item_rundata scorer responses[i] (a + i)).1 = Except.error e →
      ∃ e', score_run scorer responses p a =
        (Except.error e', a + responses.length)) := by
  constructor
  · intro r rd a0 hok m hm
    rcases score_item_rundata_ok scorer r a0 rd hok with ⟨pairs, hp1, hp2, _⟩
    have hnames := metricResults_names scorer.metrics r _ pairs hp1
    have hkey : m.name ∈ pairs.reverse.map Prod.fst := by
      rw [List.map_reverse, hnames]
      exact List.mem_reverse.2 (List.mem_map_of_mem Metric.name hm)
    rcases alookup_isSome_of_mem_keys pairs.reverse m.name hkey with ⟨v, hv⟩
    refine ⟨v, ?_⟩
    rw [hp2, alookup_foldl_ainsert pairs [] m.name, hv]
    rfl
  · intro i e hi herr
    have htask := scoreRunTasks_getElem scorer responses a i hi
    have hmem : Except.error e ∈
        (scoreRunTasks scorer responses a).1.map Prod.fst := by
      have hq : ((scoreRunTasks scorer responses a).1.map Prod.fst)[i]? =
          some (Except.error e) := by
        rw [List.getElem?_map Prod.fst (scoreRunTasks scorer responses a).1 i,
          htask]
        simp [herr]
      exact List.getElem?_mem hq
    rcases collectResults_error_of_mem _ e hmem with ⟨e', he'⟩
    refine ⟨e', ?_⟩
    rw [score_run]
    simp only [he']
    rw [scoreRunTasks_alloc]

/-- C4: if the callback raises for any benchmark item, the whole `score`
call raises that failure and no Run is returned (no partial-result
recovery in the generation stage). -/
theorem spec_c4_callback_failure (scorer : ValidateScorer)
    (benchmark : List BenchmarkItem)
    (cb : String → Except String (String × List String))
    (cp sp a : Nat) (i : Nat) (e : String) (hi : i < benchmark.length)
    (hcb : cb benchmark[i].question = Except.error e) :
    ∃ e', score scorer benchmark cb cp sp a = (Except.error e', a) := by
  have hcr : create_response cb benchmark[i] = Except.error e := by
    rw [create_response, hcb]
    rfl
  have hmem : Except.error e ∈ benchmark.map (create_response cb) := by
    rw [← hcr]
    exact List.mem_map_of_mem (create_response cb) (benchmark.getElem_mem hi)
  rcases collectResults_error_of_mem _ e hmem with ⟨e', he'⟩
  refine ⟨e', ?_⟩
  rw [score, generateResponses]
  simp only [he']

/-- C5: for every scored LLMResponse exactly one new `OpenAIService` is
constructed (the allocation counter advances by exactly the number of
responses), it carries the scorer's `model_evaluator`, it serves all
configured metrics of that response only, and no service instance is ever
shared across two different responses. -/
theorem spec_c5_fresh_judge_service (scorer : ValidateScorer)
    (responses : List LLMResponse) (a : Nat) :
    (scoreRunTasks scorer responses a).2 = a + responses.length ∧
    (scoreRunTasks scorer responses a).1.length = responses.length ∧
    (∀ (i : Nat) (t : Except String RunData × List MetricCall),
      (scoreRunTasks scorer responses a).1[i]? = some t →
      ∀ c ∈ t.2, c.service = ⟨scorer.model_evaluator, a + i⟩) ∧
    (∀ (i j : Nat) (ti tj : Except String RunData × List MetricCall)
      (ci cj : MetricCall), i ≠ j →
      (scoreRunTasks scorer responses a).1[i]? = some ti →
      (scoreRunTasks scorer responses a).1[j]? = some tj →
      ci ∈ ti.2 → cj ∈ tj.2 → ci.service.oid ≠ cj.service.oid) ∧
    (∀ (i : Nat) (t : Except String RunData × List MetricCall) (rd : RunData),
      (scoreRunTasks scorer responses a).1[i]? = some t →
      t.1 = Except.ok rd →
      t.2.map MetricCall.metricName = scorer.metrics.map Metric.name) := by
  have hserve : ∀ (i : Nat) (t : Except String RunData × List MetricCall),
      (scoreRunTasks scorer responses a).1[i]? = some t →
      ∀ c ∈ t.2, c.service = ⟨scorer.model_evaluator, a + i⟩ := by
    intro i t ht c hc
    have hi : i < responses.length := by
      have : i < (scoreRunTasks scorer responses a).1.length :=
        List.getElem?_eq_some.1 ht |>.1
      rwa [scoreRunTasks_length] at this
    rw [scoreRunTasks_getElem scorer responses a i hi] at ht
    have ht' := Option.some.inj ht
    rw [← ht'] at hc
    exact score_item_rundata_calls_service scorer responses[i] (a + i) c hc
  refine ⟨scoreRunTasks_alloc scorer responses a,
    scoreRunTasks_length scorer responses a, hserve, ?_, ?_⟩
  · intro i j ti tj ci cj hij hti htj hci hcj
    have h1 := hserve i ti hti ci hci
    have h2 := hserve j tj htj cj hcj
    rw [h1, h2]
    simpa using fun hh => hij (by omega)
  · intro i t rd ht hok
    have hi : i < responses.length := by
      have : i < (scoreRunTasks scorer responses a).1.length :=
        List.getElem?_eq_some.1 ht |>.1
      rwa [scoreRunTasks_length] at this
    rw [scoreRunTasks_getElem scorer responses a i hi] at ht
    have ht' := Option.some.inj ht
    rw [← ht'] at hok
    simp only at hok
    rcases score_item_rundata_ok scorer responses[i] (a + i) rd hok with
      ⟨pairs, _, _, _, _, _, _, htrace⟩
    rw [← ht']
    simp only [htrace]
    simp

/-- C8: aggregation agrees with a reference sequential implementation:
the parallelism argument does not affect `score_run`'s result, every
`overall_scores` entry equals the spec-side per-metric mean, and the
aggregation is order-independent (invariant under permutation of the
RunData list). -/
theorem spec_c8_sequential_refinement (scorer : ValidateScorer)
    (responses : List LLMResponse) (p q a : Nat) :
    score_run scorer responses p a = score_run scorer responses q a ∧
    (∀ run a', score_run scorer responses p a = (Except.ok run, a') →
      ∀ m, alookup m run.overall_scores = overallScoresRef run.run_data m) ∧
    (∀ rds rds' : List RunData, rds.Perm rds' →
      (∀ rd ∈ rds, (rd.scores.map Prod.fst).Nodup) →
      ∀ m, alookup m (overallScores rds) = alookup m (overallScores rds')) := by
  refine ⟨rfl, ?_, ?_⟩
  · intro run a' hrun m
    rcases score_run_ok scorer responses p a a' run hrun with ⟨hov, _, _, _⟩
    have hnd := score_run_rundata_nodup scorer responses p a a' run hrun
    rw [hov, overallScores_lookup run.run_data m hnd, overallScoresRef]
  · intro rds rds' hperm hnd m
    have hnd' : ∀ rd ∈ rds', (rd.scores.map Prod.fst).Nodup :=
      fun rd hrd => hnd rd (hperm.mem_iff.2 hrd)
    have hmv : (metricValues rds m).Perm (metricValues rds' m) := by
      unfold metricValues
      exact hperm.filterMap (fun rd => alookup m rd.scores)
    rw [overallScores_lookup rds m hnd, overallScores_lookup rds' m hnd']
    by_cases hre : metricValues rds m = []
    · have hre' : metricValues rds' m = [] := by
        have := hmv
        rw [hre] at this
        exact this.symm.eq_nil
      rw [if_pos hre, if_pos hre']
    · have hre' : metricValues rds' m ≠ [] := by
        intro hh
        rw [hh] at hmv
        exact hre hmv.eq_nil
      rw [if_neg hre, if_neg hre', hmv.sum_eq, hmv.length_eq]

/-- C10: when two configured metrics share a name, each RunData maps that
name to the score of the last such metric in configuration order
(last-write-wins), the scores dict has no duplicate keys (so aggregation
counts one value per name per RunData), its key set is exactly the
configured metric names, and duplicate-named metrics are accepted. -/
theorem spec_c10_duplicate_names_last_wins (scorer : ValidateScorer)
    (r : LLMResponse) (a : Nat) (rd : RunData)
    (h : (score_item_rundata scorer r a).1 = Except.ok rd) :
    (rd.scores.map Prod.fst).Nodup ∧
    (∀ name, name ∈ rd.scores.map Prod.fst ↔
      name ∈ scorer.metrics.map Metric.name) ∧
    ∃ pairs, metricResults scorer.metrics r ⟨scorer.model_evaluator, a⟩ =
        Except.ok pairs ∧
      pairs.map Prod.fst = scorer.metrics.map Metric.name ∧
      ∀ name, alookup name rd.scores = alookup name pairs.reverse := by
  rcases score_item_rundata_ok scorer r a rd h with ⟨pairs, hp1, hp2, _⟩
  have hnames := metricResults_names scorer.metrics r _ pairs hp1
  have hlast : ∀ name, alookup name rd.scores = alookup name pairs.reverse := by
    intro name
    rw [hp2, alookup_foldl_ainsert pairs [] name]
    cases alookup name pairs.reverse with
    | none => rfl
    | some v => rfl
  refine ⟨?_, ?_, pairs, hp1, hnames, hlast⟩
  · rw [hp2]
    exact nodup_keys_foldl_ainsert pairs [] (by simp)
  · intro name
    constructor
    · intro hmem
      rcases alookup_isSome_of_mem_keys rd.scores name hmem with ⟨v, hv⟩
      rw [hlast name] at hv
      have : name ∈ pairs.reverse.map Prod.fst := by
        by_contra hno
        rw [(alookup_eq_none pairs.reverse name).2 hno] at hv
        cases hv
      rw [List.map_reverse, hnames] at this
      exact List.mem_reverse.1 this
    · intro hmem
      have : name ∈ pairs.reverse.map Prod.fst := by
        rw [List.map_reverse, hnames]
        exact List.mem_reverse.2 hmem
      rcases alookup_isSome_of_mem_keys pairs.reverse name this with ⟨v, hv⟩
      have hv2 : alookup name rd.scores = some v := by
        rw [hlast name]
        exact hv
      by_contra hno
      rw [(alookup_eq_none rd.scores name).2 hno] at hv2
      cases hv2

/-! ### Concrete fixtures for the witnesses -/

def itemA : BenchmarkItem := ⟨"q1", "a1", none⟩
def itemB : BenchmarkItem := ⟨"q2", "a2", none⟩
def itemC : BenchmarkItem := ⟨"q3", "a3", none⟩
def respA : LLMResponse := ⟨"ans1", ["ctx1"], itemA⟩
def respB : LLMResponse := ⟨"ans2", ["ctx2"], itemB⟩

def constMetric (nm : String) (q : ℚ) : Metric := ⟨nm, fun _ _ => Except.ok q⟩
def failMetric (nm : String) : Metric := ⟨nm, fun _ _ => Except.error "metric boom"⟩

def scorerAB : ValidateScorer :=
  ⟨[constMetric "A" 1, constMetric "B" 2], "gpt-4-turbo-preview"⟩
def scorerDup : ValidateScorer :=
  ⟨[constMetric "A" 1, constMetric "A" 2], "gpt-4-turbo-preview"⟩
def scorerFail : ValidateScorer :=
  ⟨[constMetric "A" 1, failMetric "B"], "gpt-4-turbo-preview"⟩

def cbOk : String → Except String (String × List String) :=
  fun q => Except.ok (q ++ "!", [q])
def cbFail : String → Except String (String × List String) :=
  fun q => if q = "q2" then Except.error "callback boom"
    else Except.ok (q ++ "!", [q])

def rdA : RunData := ⟨[("A", 1), ("B", 2)], "q1", "a1", "ans1", ["ctx1"]⟩
def rdB : RunData := ⟨[("A", 1), ("B", 2)], "q2", "a2", "ans2", ["ctx2"]⟩
def runAB : Run := ⟨[("A", 1), ("B", 2)], [rdA, rdB], none⟩
def rdDup : RunData := ⟨[("A", 2)], "q1", "a1", "ans1", ["ctx1"]⟩

def respsOk : List LLMResponse :=
  [⟨"q1!", ["q1"], itemA⟩, ⟨"q2!", ["q2"], itemB⟩, ⟨"q3!", ["q3"], itemC⟩]

def svc0 : OpenAIService := ⟨"gpt-4-turbo-preview", 0⟩
def svc1 : OpenAIService := ⟨"gpt-4-turbo-preview", 1⟩
def task0 : Except String RunData × List MetricCall :=
  (Except.ok rdA, [⟨"A", svc0⟩, ⟨"B", svc0⟩])
def task1 : Except String RunData × List MetricCall :=
  (Except.ok rdB, [⟨"A", svc1⟩, ⟨"B", svc1⟩])

/-- Witness for C1 at a two-response run with metrics `A` and `B`. -/
theorem spec_c1_witness :
    (1 : ℚ) = (metricValues runAB.run_data "A").sum /
      ((metricValues runAB.run_data "A").length : ℚ) :=
  spec_c1_overall_mean scorerAB [respA, respB] 1 0 2 runAB "A" 1
    (by simp [score_run, scoreRunTasks, score_item_rundata, scoreMetricsLoop,
      OpenAIService.new, scorerAB, constMetric, respA, respB, itemA, itemB,
      ainsert, alookup, collectResults, Except.map, aggregate, aggregateStep,
      overallScores, runAB, rdA, rdB])
    (by simp [runAB, alookup])

/-- Witness for C2: three items, completion order `[2, 0, 1]`. -/
theorem spec_c2_witness :
    executorMapSchedule (create_response cbOk) [itemA, itemB, itemC] [2, 0, 1] =
      ([itemA, itemB, itemC].map (create_response cbOk)).map some ∧
    respsOk.length = [itemA, itemB, itemC].length ∧
    ∀ i (hi : i < [itemA, itemB, itemC].length) (hi' : i < respsOk.length),
      create_response cbOk [itemA, itemB, itemC][i] = Except.ok respsOk[i] :=
  spec_c2_generation_order cbOk [itemA, itemB, itemC] [2, 0, 1] respsOk
    (by decide) (by rfl)

/-- Witness for C3: a fully scored RunData covers metric `A`, and a failing
metric aborts the scoring run. -/
theorem spec_c3_witness :
    (∃ v, alookup "A" rdA.scores = some v) ∧
    (∃ e', score_run scorerFail [respA] 1 0 = (Except.error e', 1)) := by
  constructor
  · exact (spec_c3_atomic_scoring scorerAB [respA] 1 0).1 respA rdA 0
      (by simp [score_item_rundata, scoreMetricsLoop, OpenAIService.new,
        scorerAB, constMetric, respA, itemA, ainsert, rdA])
      (constMetric "A" 1) (by simp [scorerAB])
  · exact (spec_c3_atomic_scoring scorerFail [respA] 1 0).2 0 "metric boom"
      (by decide)
      (by simp [score_item_rundata, scoreMetricsLoop, OpenAIService.new,
        scorerFail, constMetric, failMetric, respA, itemA, ainsert])

/-- Witness for C4: the callback raises on the second of three items. -/
theorem spec_c4_witness :
    ∃ e', score scorerAB [itemA, itemB, itemC] cbFail 2 1 0 =
      (Except.error e', 0) :=
  spec_c4_callback_failure scorerAB [itemA, itemB, itemC] cbFail 2 1 0 1
    "callback boom" (by decide) (by rfl)

/-- Witness for C5: at a two-response run, the first response's calls all
use the service allocated as object 0, services of the two responses
differ, and the first task's trace covers the configured metric names. -/
theorem spec_c5_witness :
    (MetricCall.service ⟨"A", svc0⟩ : OpenAIService) =
      ⟨scorerAB.model_evaluator, 0 + 0⟩ ∧
    (MetricCall.service ⟨"A", svc0⟩).oid ≠ (MetricCall.service ⟨"B", svc1⟩).oid ∧
    task0.2.map MetricCall.metricName = scorerAB.metrics.map Metric.name := by
  have h := spec_c5_fresh_judge_service scorerAB [respA, respB] 0
  refine ⟨?_, ?_, ?_⟩
  · exact h.2.2.1 0 task0
      (by simp [scoreRunTasks, score_item_rundata, scoreMetricsLoop,
        OpenAIService.new, scorerAB, constMetric, respA, respB, itemA, itemB,
        ainsert, task0, rdA, svc0])
      ⟨"A", svc0⟩ (by simp [task0])
  · exact h.2.2.2.1 0 1 task0 task1 ⟨"A", svc0⟩ ⟨"B", svc1⟩ (by decide)
      (by simp [scoreRunTasks, score_item_rundata, scoreMetricsLoop,
        OpenAIService.new, scorerAB, constMetric, respA, respB, itemA, itemB,
        ainsert, task0, rdA, svc0])
      (by simp [scoreRunTasks, score_item_rundata, scoreMetricsLoop,
        OpenAIService.new, scorerAB, constMetric, respA, respB, itemA, itemB,
        ainsert, task1, rdB, svc1])
      (by simp [task0]) (by simp [task1])
  · exact h.2.2.2.2 0 task0 rdA
      (by simp [scoreRunTasks, score_item_rundata, scoreMetricsLoop,
        OpenAIService.new, scorerAB, constMetric, respA, respB, itemA, itemB,
        ainsert, task0, rdA, svc0])
      (by simp [task0])

/-- Witness for C6 at the two-response run: metric `A` has two observations
and a nonzero denominator. -/
theorem spec_c6_witness :
    0 < (metricValues runAB.run_data "A").length ∧
    alookup "A" (aggregate runAB.run_data).2 =
      some (metricValues runAB.run_data "A").length ∧
    ∃ rd ∈ runAB.run_data, (alookup "A" rd.scores).isSome :=
  spec_c6_no_zero_count scorerAB [respA, respB] 1 0 2 runAB "A"
    (by simp [score_run, scoreRunTasks, score_item_rundata, scoreMetricsLoop,
      OpenAIService.new, scorerAB, constMetric, respA, respB, itemA, itemB,
      ainsert, alookup, collectResults, Except.map, aggregate, aggregateStep,
      overallScores, runAB, rdA, rdB])
    (by simp [runAB, alookup])

/-- Witness for C8: parallelism 3 and 1 agree, the overall score of `A`
matches the reference mean, and swapping the two RunData leaves the
aggregate unchanged. -/
theorem spec_c8_witness :
    score_run scorerAB [respA, respB] 3 0 = score_run scorerAB [respA, respB] 1 0 ∧
    alookup "A" runAB.overall_scores = overallScoresRef runAB.run_data "A" ∧
    alookup "A" (overallScores [rdA, rdB]) =
      alookup "A" (overallScores [rdB, rdA]) := by
  have h := spec_c8_sequential_refinement scorerAB [respA, respB] 3 1 0
  refine ⟨h.1, ?_, ?_⟩
  · exact h.2.1 runAB 2
      (by simp [score_run, scoreRunTasks, score_item_rundata, scoreMetricsLoop,
        OpenAIService.new, scorerAB, constMetric, respA, respB, itemA, itemB,
        ainsert, alookup, collectResults, Except.map, aggregate, aggregateStep,
        overallScores, runAB, rdA, rdB]) "A"
  · exact h.2.2 [rdA, rdB] [rdB, rdA] (List.Perm.swap rdB rdA [])
      (by simp [rdA, rdB]) "A"

/-- Witness for C9: at the two-response run the i-th RunData is the i-th
response's scoring result. -/
theorem spec_c9_witness :
    runAB.run_data.length = [respA, respB].length ∧
    ∀ i (hi : i < [respA, respB].length) (hi' : i < runAB.run_data.length),
      (score_item_rundata scorerAB [respA, respB][i] (0 + i)).1 =
        Except.ok runAB.run_data[i] :=
  spec_c9_rundata_order scorerAB [respA, respB] 1 0 2 runAB
    (by simp [score_run, scoreRunTasks, score_item_rundata, scoreMetricsLoop,
      OpenAIService.new, scorerAB, constMetric, respA, respB, itemA, itemB,
      ainsert, alookup, collectResults, Except.map, aggregate, aggregateStep,
      overallScores, runAB, rdA, rdB])

/-- Witness for C10: two metrics both named `A` scoring 1 and 2 — the
resulting dict maps `A` to the last metric's score. -/
theorem spec_c10_witness :
    (rdDup.scores.map Prod.fst).Nodup ∧
    (∀ name, name ∈ rdDup.scores.map Prod.fst ↔
      name ∈ scorerDup.metrics.map Metric.name) ∧
    ∃ pairs, metricResults scorerDup.metrics respA
        ⟨scorerDup.model_evaluator, 0⟩ = Except.ok pairs ∧
      pairs.map Prod.fst = scorerDup.metrics.map Metric.name ∧
      ∀ name, alookup name rdDup.scores = alookup name pairs.reverse :=
  spec_c10_duplicate_names_last_wins scorerDup respA 0 rdDup
    (by simp [score_item_rundata, scoreMetricsLoop, OpenAIService.new,
      scorerDup, constMetric, respA, itemA, ainsert, rdDup])
